import Mathlib

/-!
Verification of the animation/choreography core of the `christmas-tree`
repository: a shallow embedding, in Lean 4, of the procedural layout
generators, the polaroid card animator, the foliage vertex-shader blend and
the focus-choreography state machine of `src/components/Experience.tsx`,
`src/components/Polaroids.tsx` and `src/components/Foliage.tsx`.

Conventions of the embedding:
* JavaScript numbers are modelled as exact rationals (`ℚ`); array indices
  and counts as naturals (`ℕ`).
* `Vector3.distanceTo(a, b) < c` (with `c ≥ 0`) is modelled by the
  equivalent squared comparison `distSq a b < c ^ 2`, which keeps every
  definition executable (no square roots).
* The transcendental parts (`Math.cos`, `Math.sin`, GLSL `normalize`) are
  abstracted as function parameters; theorems that need the Pythagorean
  identity take it as a hypothesis, and witnesses instantiate the
  parameter with a concrete rational function satisfying it.
-/

/-- A 3-component vector with exact rational coordinates, standing for a
`THREE.Vector3`. -/
structure Vec3 where
  x : ℚ
  y : ℚ
  z : ℚ
  deriving DecidableEq, Repr

/-- `THREE.Vector3.lerp` on one component: `a + (b - a) * t` (no clamping). -/
def lerpQ (a b t : ℚ) : ℚ := a + (b - a) * t

/-- `THREE.Vector3.lerp`: componentwise linear interpolation toward `b`. -/
def lerpV (a b : Vec3) (t : ℚ) : Vec3 :=
  ⟨lerpQ a.x b.x t, lerpQ a.y b.y t, lerpQ a.z b.z t⟩

/-- Squared Euclidean distance; `distanceTo a b < c` (`c ≥ 0`) iff
`distSq a b < c ^ 2`. -/
def distSq (a b : Vec3) : ℚ :=
  (a.x - b.x) ^ 2 + (a.y - b.y) ^ 2 + (a.z - b.z) ^ 2

/-- Squared cylindrical radius of a point (distance to the tree's vertical
axis); the "radius coordinate" of a layout point, squared. -/
def radiusSq (v : Vec3) : ℚ := v.x ^ 2 + v.z ^ 2

/-- Modelled from the spec: `src/types.ts` is not under `src/`; the spec's
data model fixes **Mode** as the enumeration `{FORMED, CHAOS}`, which is all
the embedded code consults (`mode === TreeMode.FORMED`). -/
inductive TreeMode where
  | FORMED
  | CHAOS
  deriving DecidableEq, Repr

/-- A photo record as delivered by `usePhotoSync` (only the fields the
choreography core reads; `url`/`message` are opaque payload). -/
structure Photo where
  id : ℤ
  isNew : Bool
  deriving DecidableEq, Repr

/-- The ids of the current photo list. -/
def photoIds (photos : List Photo) : List ℤ := photos.map Photo.id

/-!
## Layout generators (`src/components/Polaroids.tsx`, `src/components/Foliage.tsx`)
-/

/-- `calculateTargetPosition` from `src/components/Polaroids.tsx` (lines
32–64): ring layout of photo cards on the tree cone.

`dirF frac ringOffset` abstracts the pair
`(Math.cos θ, Math.sin θ)` at `θ = frac * 2π + ringOffset`, where
`frac = posInRing / photosInThisRing`; the angle's rational skeleton
(`frac`, `ringOffset`) is passed through exactly.

`Math.ceil (total / 5)` on a natural `total` is `(total + 4) / 5` in `ℕ`
division, and `Math.ceil (total / photosPerRing)` is
`(total + photosPerRing - 1) / photosPerRing`.

The result is `none` exactly when JavaScript would divide by zero
(`photosInThisRing = 0`, producing `NaN` coordinates). -/
def calculateTargetPosition (dirF : ℚ → ℚ → ℚ × ℚ) (index total : ℕ) :
    Option Vec3 :=
  let treeHeight : ℚ := 10
  let baseRadius : ℚ := 52 / 10
  let topRadius : ℚ := 12 / 10
  let photosPerRing : ℕ := max 6 ((total + 4) / 5)
  let numRings : ℕ := (total + photosPerRing - 1) / photosPerRing
  let ringIndex : ℕ := index / photosPerRing
  let posInRing : ℕ := index % photosPerRing
  let photosInThisRing : ℤ :=
    min (photosPerRing : ℤ) ((total : ℤ) - (ringIndex : ℤ) * (photosPerRing : ℤ))
  if photosInThisRing = 0 then none
  else
    let yNorm : ℚ := 15 / 100 + ((ringIndex : ℚ) / ((max (numRings - 1) 1 : ℕ) : ℚ)) * (7 / 10)
    let y : ℚ := yNorm * treeHeight
    let r : ℚ := baseRadius * (1 - yNorm * (75 / 100)) + topRadius * yNorm * (5 / 10) + 5 / 10
    let ringOffset : ℚ := (ringIndex : ℚ) * (3 / 10)
    let frac : ℚ := (posInRing : ℚ) / (photosInThisRing : ℚ)
    let cs := dirF frac ringOffset
    some ⟨r * cs.1, y, r * cs.2⟩

/-- `calculateScale` from `src/components/Polaroids.tsx` (lines 67–75):
base card scale as a step function of the total photo count. -/
def calculateScale (totalPhotos : ℕ) : ℚ :=
  if totalPhotos ≤ 5 then 3 / 2
  else if totalPhotos ≤ 10 then 13 / 10
  else if totalPhotos ≤ 15 then 11 / 10
  else if totalPhotos ≤ 20 then 19 / 20
  else if totalPhotos ≤ 30 then 4 / 5
  else if totalPhotos ≤ 50 then 13 / 20
  else 1 / 2

/-- Foliage target position `i` of `count` from the layout `useMemo` in
`src/components/Foliage.tsx` (lines 126–135): golden-angle spiral cone.
`dir i` abstracts `(Math.cos a, Math.sin a)` at `a = 2π · φ · i`
(the golden-angle direction of particle `i`); the chaos positions and the
random seeds of the same `useMemo` are draws from `Math.random()` and play
no part in the target layout. -/
def foliageTargetPosition (dir : ℕ → ℚ × ℚ) (count i : ℕ) : Vec3 :=
  let height : ℚ := 12
  let maxRadius : ℚ := 5
  let yNorm : ℚ := (i : ℚ) / (count : ℚ)
  let y : ℚ := yNorm * height
  let currentRadius : ℚ := maxRadius * (1 - yNorm)
  ⟨(dir i).1 * currentRadius, y, (dir i).2 * currentRadius⟩

/-!
## Foliage vertex shader (`src/components/Foliage.tsx`, lines 12–81)
-/

/-- GLSL `clamp(x, lo, hi)`. -/
def clampQ (x lo hi : ℚ) : ℚ := min (max x lo) hi

/-- `cubicInOut` from the foliage vertex shader. -/
def cubicInOut (t : ℚ) : ℚ :=
  if t < 1 / 2 then 4 * t * t * t
  else 1 - (-2 * t + 2) ^ 3 / 2

/-- GLSL `mix(a, b, t) = a * (1 - t) + b * t`, componentwise. -/
def mixV (a b : Vec3) (t : ℚ) : Vec3 :=
  ⟨a.x * (1 - t) + b.x * t, a.y * (1 - t) + b.y * t, a.z * (1 - t) + b.z * t⟩

/-- The per-particle local progress of the vertex shader:
`clamp(uProgress * 1.2 - aRandom * 0.2, 0.0, 1.0)`. -/
def localProgress (uProgress aRandom : ℚ) : ℚ :=
  clampQ (uProgress * (12 / 10) - aRandom * (2 / 10)) 0 1

/-- `newPos` as computed by the vertex shader up to the expand branch
(lines 31–47): the chaos/target blend, then the outward expand displacement
when `uExpand > 0`. `normalizeF` abstracts GLSL `normalize`, `sinF`
abstracts GLSL `sin`; both are irrelevant when `uExpand = 0`. -/
def foliageNewPos (normalizeF : Vec3 → Vec3) (sinF : ℚ → ℚ)
    (uTime uProgress uExpand aRandom : ℚ) (aChaosPos aTargetPos : Vec3) : Vec3 :=
  let easedProgress : ℚ := cubicInOut (localProgress uProgress aRandom)
  let newPos : Vec3 := mixV aChaosPos aTargetPos easedProgress
  if 0 < uExpand then
    let center : Vec3 := ⟨0, 6, 0⟩
    let direction : Vec3 :=
      normalizeF ⟨newPos.x - center.x, newPos.y - center.y, newPos.z - center.z⟩
    let expandDist : ℚ := uExpand * 3 * (1 / 2 + aRandom * (1 / 2))
    let moved : Vec3 :=
      ⟨newPos.x + direction.x * expandDist,
       newPos.y + direction.y * expandDist,
       newPos.z + direction.z * expandDist⟩
    { moved with y := moved.y + sinF (uTime * 2 + aRandom * 10) * uExpand * (1 / 2) }
  else newPos

/-!
## Polaroid card destination selection (`src/components/Polaroids.tsx`, lines 216–244)
-/

/-- The fixed on-screen display position of the focused card (local
coordinates of the tree group): `focusDisplayPos = (0, 8, 14)`. -/
def focusDisplayPos : Vec3 := ⟨0, 8, 14⟩

/-- The per-card positional data a `PolaroidItem` reads every frame: its
ring-layout target, its chaos position and its per-mount random scatter
position (all three are computed once per mount; the frame loop only reads
them). -/
structure PhotoCard where
  targetPos : Vec3
  chaosPos : Vec3
  scatterPos : Vec3
  deriving DecidableEq, Repr

/-- The destination-position selection of the `useFrame` body of
`PolaroidItem` (lines 222–239): the `shouldFocus` card goes to the fixed
display position, other cards scatter while a focus is active, otherwise
the mode decides between ring-layout target and chaos position. -/
def destPos (isHighlighted isFocusing : Bool) (mode : TreeMode)
    (d : PhotoCard) : Vec3 :=
  if isHighlighted && isFocusing then focusDisplayPos
  else if isFocusing && !isHighlighted then d.scatterPos
  else if mode = TreeMode.FORMED then d.targetPos
  else d.chaosPos

/-!
## Focus choreographer (`src/components/Experience.tsx`)

The component state and refs of `Experience` are collected into one record;
the two observable callbacks (`setFocusState('focused')` inside the
`zooming_in` branch and `onFocusComplete()` inside the `zooming_out`
branch) are instrumented as counters so that "fires exactly once" is a
statement about the model.
-/

/-- `type FocusState = 'idle' | 'zooming_in' | 'focused' | 'zooming_out'`. -/
inductive FocusState where
  | idle
  | zooming_in
  | focused
  | zooming_out
  deriving DecidableEq, Repr

/-- The choreography-relevant state of the `Experience` component:
React state (`focusState`, `highlightPhotoId`), the camera refs, the
pending dwell timer (as the scheduled duration in milliseconds, `none` when
no timeout is pending), the OrbitControls enabled flag, and two
instrumentation counters for the observable transitions. -/
structure ExpState where
  focusState : FocusState
  highlightPhotoId : Option ℤ
  focusTimer : Option ℚ
  targetCameraPos : Vec3
  targetLookAt : Vec3
  originalCameraPos : Vec3
  originalLookAt : Vec3
  cameraPos : Vec3
  controlsTarget : Vec3
  controlsEnabled : Bool
  focusCompleteCount : ℕ
  focusedFireCount : ℕ
  deriving DecidableEq, Repr

/-- `handlePhotoClick` (lines 104–130): ignored unless idle; otherwise
snapshots the camera pose, aims at the click display position
`(0, 2, 12)` with camera target `(0, 2, 17)`, disables the controls,
highlights the clicked photo, enters `zooming_in` and schedules a 5000 ms
dwell timeout. -/
def handlePhotoClick (s : ExpState) (photoId : ℤ) : ExpState :=
  if s.focusState ≠ FocusState.idle then s
  else
    let photoDisplayPos : Vec3 := ⟨0, 2, 12⟩
    { s with
      originalCameraPos := s.cameraPos
      originalLookAt := s.controlsTarget
      targetCameraPos := ⟨0, 2, 17⟩
      targetLookAt := photoDisplayPos
      controlsEnabled := false
      highlightPhotoId := some photoId
      focusState := FocusState.zooming_in
      focusTimer := some 5000 }

/-- The `focusPhotoId` effect (lines 133–173): for a non-null
`focusPhotoId` it snapshots the camera pose, aims at the new-photo display
position `(0, 4, 16)` with camera target `(0, 4, 20)`, enters `zooming_in`,
highlights the requested id, disables the controls, clears any pending
dwell timeout and schedules a fresh 20000 ms one.  The effect runs in any
focus state and never consults the `photos` list (the parameter is in scope
in the component but unread here). -/
def focusPhotoEffect (photos : List Photo) (s : ExpState)
    (focusPhotoId : Option ℤ) : ExpState :=
  match focusPhotoId with
  | none => s
  | some pid =>
    let photoDisplayPos : Vec3 := ⟨0, 4, 16⟩
    { s with
      originalCameraPos := s.cameraPos
      originalLookAt := s.controlsTarget
      targetCameraPos := ⟨0, 4, 20⟩
      targetLookAt := photoDisplayPos
      focusState := FocusState.zooming_in
      highlightPhotoId := some pid
      controlsEnabled := false
      focusTimer := some 20000 }

/-- Firing of the scheduled dwell timeout (lines 127–129 / 162–165): the
callback sets the state to `zooming_out`; the timeout itself is consumed. -/
def dwellElapsed (s : ExpState) : ExpState :=
  { s with focusState := FocusState.zooming_out, focusTimer := none }

/-- One execution of the focus-animation part of the `useFrame` body
(lines 191–223), with the OrbitControls ref mounted and `δ` the frame
delta in seconds (`lerpSpeed = 3`):

* `zooming_in`: lerp camera and look-at toward the stored targets; if the
  camera lands within 0.3 units of the target (`distSq < (3/10)^2`), enter
  `focused` (counted by `focusedFireCount`);
* `focused`: keep lerping the look-at only;
* `zooming_out`: lerp camera and look-at back toward the original
  snapshot; if the camera lands within 0.5 units of the original
  (`distSq < (1/2)^2`), enter `idle`, clear the highlight, re-enable the
  controls and call `onFocusComplete` (counted by `focusCompleteCount`);
* `idle`: no camera choreography (the tree auto-rotation does not touch
  any field of this record). -/
def frameStep (δ : ℚ) (s : ExpState) : ExpState :=
  let lerpSpeed : ℚ := 3
  if s.focusState = FocusState.zooming_in then
    let cam := lerpV s.cameraPos s.targetCameraPos (δ * lerpSpeed)
    let tgt := lerpV s.controlsTarget s.targetLookAt (δ * lerpSpeed)
    if distSq cam s.targetCameraPos < (3 / 10) ^ 2 then
      { s with cameraPos := cam, controlsTarget := tgt,
               focusState := FocusState.focused,
               focusedFireCount := s.focusedFireCount + 1 }
    else
      { s with cameraPos := cam, controlsTarget := tgt }
  else if s.focusState = FocusState.focused then
    { s with controlsTarget := lerpV s.controlsTarget s.targetLookAt (δ * lerpSpeed) }
  else if s.focusState = FocusState.zooming_out then
    let cam := lerpV s.cameraPos s.originalCameraPos (δ * lerpSpeed)
    let tgt := lerpV s.controlsTarget s.originalLookAt (δ * lerpSpeed)
    if distSq cam s.originalCameraPos < (1 / 2) ^ 2 then
      { s with cameraPos := cam, controlsTarget := tgt,
               focusState := FocusState.idle,
               highlightPhotoId := none,
               controlsEnabled := true,
               focusCompleteCount := s.focusCompleteCount + 1 }
    else
      { s with cameraPos := cam, controlsTarget := tgt }
  else s

/-- A run of consecutive animation frames with the given frame deltas. -/
def runFrames (ds : List ℚ) (s : ExpState) : ExpState :=
  ds.foldl (fun t δ => frameStep δ t) s

/-!
## Theorems
-/

/-- Helper: `calculateScale` is antitone on ℕ. -/
lemma calculateScale_anti (a b : ℕ) (h : a ≤ b) :
    calculateScale b ≤ calculateScale a := by
  unfold calculateScale
  split_ifs <;> first | (exfalso; omega) | norm_num

/-- **C9** The card base-scale function `calculateScale` is monotonically
non-increasing in the total photo count, with breakpoints exactly at totals
5, 10, 15, 20, 30 and 50: the inputs 5, 10, 15, 20, 30, 50 and 51 map to
strictly decreasing scale values, and each breakpoint total still receives
the larger-scale step's value (it agrees with the interior of its step). -/
theorem calculateScale_step_function (a b : ℕ) (h : a ≤ b) :
    calculateScale b ≤ calculateScale a ∧
    calculateScale 10 < calculateScale 5 ∧
    calculateScale 15 < calculateScale 10 ∧
    calculateScale 20 < calculateScale 15 ∧
    calculateScale 30 < calculateScale 20 ∧
    calculateScale 50 < calculateScale 30 ∧
    calculateScale 51 < calculateScale 50 ∧
    calculateScale 5 = calculateScale 1 ∧
    calculateScale 10 = calculateScale 6 ∧
    calculateScale 15 = calculateScale 11 ∧
    calculateScale 20 = calculateScale 16 ∧
    calculateScale 30 = calculateScale 21 ∧
    calculateScale 50 = calculateScale 31 :=
  ⟨calculateScale_anti a b h, by norm_num [calculateScale]⟩

/-- Witness for `calculateScale_step_function` at `a = 5`, `b = 10`. -/
theorem calculateScale_step_function_witness :
    5 ≤ 10 ∧
    (calculateScale 10 ≤ calculateScale 5 ∧
     calculateScale 10 < calculateScale 5 ∧
     calculateScale 15 < calculateScale 10 ∧
     calculateScale 20 < calculateScale 15 ∧
     calculateScale 30 < calculateScale 20 ∧
     calculateScale 50 < calculateScale 30 ∧
     calculateScale 51 < calculateScale 50 ∧
     calculateScale 5 = calculateScale 1 ∧
     calculateScale 10 = calculateScale 6 ∧
     calculateScale 15 = calculateScale 11 ∧
     calculateScale 20 = calculateScale 16 ∧
     calculateScale 30 = calculateScale 21 ∧
     calculateScale 50 = calculateScale 31) :=
  ⟨by norm_num, calculateScale_step_function 5 10 (by norm_num)⟩

/-- **C2** The per-frame destination of a photo card follows the priority
of the `useFrame` body of `PolaroidItem`: the highlighted card of an active
focus goes to the fixed display position regardless of mode; any other card
during an active focus goes to its per-mount scatter position; otherwise
FORMED mode sends the card to its ring-layout target and CHAOS mode to its
chaos position. -/
theorem destPos_priority (m : TreeMode) (d : PhotoCard) (hl : Bool) :
    destPos true true m d = focusDisplayPos ∧
    destPos false true m d = d.scatterPos ∧
    destPos hl false TreeMode.FORMED d = d.targetPos ∧
    destPos hl false TreeMode.CHAOS d = d.chaosPos := by
  cases hl <;> simp [destPos]

/-- **C10** In the foliage vertex shader, for any particle seed
`aRandom ∈ [0, 1]` and `uExpand = 0`, the local progress
`clamp(1.2·uProgress − 0.2·aRandom, 0, 1)` is exactly `1` at
`uProgress = 1` and exactly `0` at `uProgress = 0`, so the chaos/target
blend puts the vertex exactly at its target position at full progress and
exactly at its chaos position at zero progress, for every `normalize`/`sin`
interpretation and time. -/
theorem shader_blend_endpoints (normalizeF : Vec3 → Vec3) (sinF : ℚ → ℚ)
    (uTime aRandom : ℚ) (chaos target : Vec3)
    (h0 : 0 ≤ aRandom) (h1 : aRandom ≤ 1) :
    localProgress 1 aRandom = 1 ∧ localProgress 0 aRandom = 0 ∧
    foliageNewPos normalizeF sinF uTime 1 0 aRandom chaos target = target ∧
    foliageNewPos normalizeF sinF uTime 0 0 aRandom chaos target = chaos := by
  have hlp1 : localProgress 1 aRandom = 1 := by
    unfold localProgress clampQ
    have hv : (1 : ℚ) ≤ 1 * (12 / 10) - aRandom * (2 / 10) := by linarith
    rw [max_eq_left (by linarith), min_eq_right hv]
  have hlp0 : localProgress 0 aRandom = 0 := by
    unfold localProgress clampQ
    have hv : (0 : ℚ) * (12 / 10) - aRandom * (2 / 10) ≤ 0 := by linarith
    rw [max_eq_right hv]
    norm_num
  obtain ⟨cx, cy, cz⟩ := chaos
  obtain ⟨tx, ty, tz⟩ := target
  refine ⟨hlp1, hlp0, ?_, ?_⟩
  · unfold foliageNewPos
    rw [hlp1]
    norm_num [cubicInOut, mixV]
  · unfold foliageNewPos
    rw [hlp0]
    norm_num [cubicInOut, mixV]

/-- Witness for `shader_blend_endpoints` at `aRandom = 1/2` with identity
interpretations of `normalize` and `sin`. -/
theorem shader_blend_endpoints_witness :
    ((0 : ℚ) ≤ 1 / 2 ∧ (1 / 2 : ℚ) ≤ 1) ∧
    (localProgress 1 (1 / 2) = 1 ∧ localProgress 0 (1 / 2) = 0 ∧
     foliageNewPos id id 0 1 0 (1 / 2) ⟨1, 2, 3⟩ ⟨4, 5, 6⟩ = ⟨4, 5, 6⟩ ∧
     foliageNewPos id id 0 0 0 (1 / 2) ⟨1, 2, 3⟩ ⟨4, 5, 6⟩ = ⟨1, 2, 3⟩) :=
  ⟨⟨by norm_num, by norm_num⟩,
   shader_blend_endpoints id id 0 (1 / 2) ⟨1, 2, 3⟩ ⟨4, 5, 6⟩ (by norm_num) (by norm_num)⟩

/-- **C5** For every count `N ≥ 1` the foliage target layout produces `N`
pairwise distinct points whose height (`y`) coordinate is non-decreasing in
index order and whose cylindrical radius is non-increasing in index order
(a monotone cone), for every direction interpretation `dir` satisfying the
Pythagorean identity of `(cos, sin)`. -/
theorem foliage_cone_monotone (dir : ℕ → ℚ × ℚ) (N : ℕ) (hN : 1 ≤ N)
    (hdir : ∀ i, ((dir i).1) ^ 2 + ((dir i).2) ^ 2 = 1) :
    (∀ i j, i < N → j < N → i ≠ j →
      foliageTargetPosition dir N i ≠ foliageTargetPosition dir N j) ∧
    (∀ i j, i ≤ j → j < N →
      (foliageTargetPosition dir N i).y ≤ (foliageTargetPosition dir N j).y) ∧
    (∀ i j, i ≤ j → j < N →
      radiusSq (foliageTargetPosition dir N j) ≤
        radiusSq (foliageTargetPosition dir N i)) := by
  have hNQ : (0 : ℚ) < (N : ℚ) := by exact_mod_cast hN
  have hy : ∀ k : ℕ, (foliageTargetPosition dir N k).y = (k : ℚ) / (N : ℚ) * 12 :=
    fun k => rfl
  have hrad : ∀ k : ℕ,
      radiusSq (foliageTargetPosition dir N k) = (5 * (1 - (k : ℚ) / (N : ℚ))) ^ 2 := by
    intro k
    show ((dir k).1 * (5 * (1 - (k : ℚ) / (N : ℚ)))) ^ 2 +
        ((dir k).2 * (5 * (1 - (k : ℚ) / (N : ℚ)))) ^ 2 =
        (5 * (1 - (k : ℚ) / (N : ℚ))) ^ 2
    linear_combination (5 * (1 - (k : ℚ) / (N : ℚ))) ^ 2 * hdir k
  have hmono : ∀ i j : ℕ, i ≤ j → (i : ℚ) / (N : ℚ) ≤ (j : ℚ) / (N : ℚ) := by
    intro i j hij
    exact (div_le_div_iff_of_pos_right hNQ).mpr (by exact_mod_cast hij)
  have hfr : ∀ k : ℕ, k ≤ N → (k : ℚ) / (N : ℚ) ≤ 1 := by
    intro k hk
    rw [div_le_one hNQ]
    exact_mod_cast hk
  refine ⟨?_, ?_, ?_⟩
  · intro i j _ _ hne heq
    apply hne
    have h12 : (i : ℚ) / (N : ℚ) * 12 = (j : ℚ) / (N : ℚ) * 12 := by
      rw [← hy i, ← hy j, heq]
    have hdd : (i : ℚ) / (N : ℚ) = (j : ℚ) / (N : ℚ) := by linarith
    rw [div_eq_div_iff (ne_of_gt hNQ) (ne_of_gt hNQ)] at hdd
    have := mul_right_cancel₀ (ne_of_gt hNQ) hdd
    exact_mod_cast this
  · intro i j hij _
    rw [hy i, hy j]
    exact mul_le_mul_of_nonneg_right (hmono i j hij) (by norm_num)
  · intro i j hij hj
    rw [hrad i, hrad j]
    have hj1 : (j : ℚ) / (N : ℚ) ≤ 1 := hfr j (le_of_lt hj)
    have h0 : (0 : ℚ) ≤ 5 * (1 - (j : ℚ) / (N : ℚ)) := by linarith
    have hle : 5 * (1 - (j : ℚ) / (N : ℚ)) ≤ 5 * (1 - (i : ℚ) / (N : ℚ)) := by
      have := hmono i j hij
      linarith
    exact pow_le_pow_left₀ h0 hle 2

/-- The constant east direction, a rational point of the unit circle, used
to instantiate the abstract `(cos, sin)` parameter in witnesses. -/
def unitDir : ℕ → ℚ × ℚ := fun _ => (1, 0)

/-- Witness for `foliage_cone_monotone` with `N = 3` and the constant unit
direction, checked at indices 0 and 1. -/
theorem foliage_cone_monotone_witness :
    (1 ≤ 3 ∧ ((unitDir 0).1) ^ 2 + ((unitDir 0).2) ^ 2 = 1) ∧
    foliageTargetPosition unitDir 3 0 ≠ foliageTargetPosition unitDir 3 1 ∧
    (foliageTargetPosition unitDir 3 0).y ≤ (foliageTargetPosition unitDir 3 1).y ∧
    radiusSq (foliageTargetPosition unitDir 3 1) ≤
      radiusSq (foliageTargetPosition unitDir 3 0) :=
  ⟨⟨by norm_num, by norm_num [unitDir]⟩,
   (foliage_cone_monotone unitDir 3 (by norm_num)
      (fun i => by norm_num [unitDir])).1 0 1 (by norm_num) (by norm_num) (by norm_num),
   (foliage_cone_monotone unitDir 3 (by norm_num)
      (fun i => by norm_num [unitDir])).2.1 0 1 (by norm_num) (by norm_num),
   (foliage_cone_monotone unitDir 3 (by norm_num)
      (fun i => by norm_num [unitDir])).2.2 0 1 (by norm_num) (by norm_num)⟩

/-- Helper: with `i < T` the ring holding card `i` is non-empty, i.e. the
`photosInThisRing` divisor of `calculateTargetPosition` is at least 1. -/
lemma photosInThisRing_pos (i T : ℕ) (h : i < T) :
    1 ≤ min ((max 6 ((T + 4) / 5) : ℕ) : ℤ)
        ((T : ℤ) - ((i / max 6 ((T + 4) / 5) : ℕ) : ℤ) * ((max 6 ((T + 4) / 5) : ℕ) : ℤ)) := by
  have hppr6 : 6 ≤ max 6 ((T + 4) / 5) := le_max_left _ _
  have hmul : i / max 6 ((T + 4) / 5) * max 6 ((T + 4) / 5) ≤ i :=
    Nat.div_mul_le_self i _
  apply le_min
  · have : (6 : ℤ) ≤ ((max 6 ((T + 4) / 5) : ℕ) : ℤ) := by exact_mod_cast hppr6
    linarith
  · have h1 : ((i / max 6 ((T + 4) / 5) : ℕ) : ℤ) * ((max 6 ((T + 4) / 5) : ℕ) : ℤ) ≤ (i : ℤ) := by
      exact_mod_cast hmul
    have h2 : (i : ℤ) < (T : ℤ) := by exact_mod_cast h
    linarith

/-- Helper: the ring index of card `i` never exceeds the guarded
`max (numRings - 1) 1` height denominator of `calculateTargetPosition`. -/
lemma ringIndex_le_denominator (i T : ℕ) (h : i < T) :
    i / max 6 ((T + 4) / 5) ≤
      max ((T + max 6 ((T + 4) / 5) - 1) / max 6 ((T + 4) / 5) - 1) 1 := by
  have hppr6 : 6 ≤ max 6 ((T + 4) / 5) := le_max_left _ _
  set p := max 6 ((T + 4) / 5) with hp
  have hppos : 0 < p := by omega
  have h1 : i / p ≤ (T - 1) / p := Nat.div_le_div_right (by omega)
  have h2 : (T + p - 1) / p = (T - 1) / p + 1 := by
    have he : T + p - 1 = (T - 1) + p := by omega
    rw [he, Nat.add_div_right _ hppos]
  have h3 : (T + p - 1) / p - 1 = (T - 1) / p := by
    rw [h2, Nat.add_sub_cancel]
  calc i / p ≤ (T - 1) / p := h1
    _ = (T + p - 1) / p - 1 := h3.symm
    _ ≤ max ((T + p - 1) / p - 1) 1 := le_max_left _ _

/-- **C4 (amended)** For every total `T` and index `i < T`,
`calculateTargetPosition i T` computes a position (no division by zero, so
in particular none for `T ∈ {0, 1}` at their valid indices) whose `y`
coordinate lies in the **closed** interval `[0.15·H, 0.85·H]` of the tree
height `H = 10`; both endpoints are attained (ring 0 sits exactly at
`0.15·H`), so the bound is not strict. -/
theorem ring_layout_y_bounds (dirF : ℚ → ℚ → ℚ × ℚ) (i T : ℕ) (hiT : i < T) :
    ∃ v, calculateTargetPosition dirF i T = some v ∧
      (15 / 100 : ℚ) * 10 ≤ v.y ∧ v.y ≤ (85 / 100 : ℚ) * 10 := by
  have hne : ¬ (min ((max 6 ((T + 4) / 5) : ℕ) : ℤ)
      ((T : ℤ) - ((i / max 6 ((T + 4) / 5) : ℕ) : ℤ) * ((max 6 ((T + 4) / 5) : ℕ) : ℤ)) = 0) := by
    have := photosInThisRing_pos i T hiT
    omega
  simp only [calculateTargetPosition]
  rw [if_neg hne]
  refine ⟨_, rfl, ?_, ?_⟩
  · have hq : (0 : ℚ) ≤ ((i / max 6 ((T + 4) / 5) : ℕ) : ℚ) /
        ((max ((T + max 6 ((T + 4) / 5) - 1) / max 6 ((T + 4) / 5) - 1) 1 : ℕ) : ℚ) := by
      positivity
    linarith
  · have hden1 : 1 ≤ max ((T + max 6 ((T + 4) / 5) - 1) / max 6 ((T + 4) / 5) - 1) 1 :=
      le_max_right _ _
    have hdenQ : (0 : ℚ) <
        ((max ((T + max 6 ((T + 4) / 5) - 1) / max 6 ((T + 4) / 5) - 1) 1 : ℕ) : ℚ) := by
      exact_mod_cast lt_of_lt_of_le one_pos (by exact_mod_cast hden1)
    have hq1 : ((i / max 6 ((T + 4) / 5) : ℕ) : ℚ) /
        ((max ((T + max 6 ((T + 4) / 5) - 1) / max 6 ((T + 4) / 5) - 1) 1 : ℕ) : ℚ) ≤ 1 := by
      rw [div_le_one hdenQ]
      exact_mod_cast ringIndex_le_denominator i T hiT
    linarith

/-- The constant east direction for the photo-ring angle abstraction, a
rational point of the unit circle. -/
def ringDirUnit : ℚ → ℚ → ℚ × ℚ := fun _ _ => (1, 0)

/-- Witness for `ring_layout_y_bounds` at `i = 0`, `T = 1`. -/
theorem ring_layout_y_bounds_witness :
    0 < 1 ∧
    ∃ v, calculateTargetPosition ringDirUnit 0 1 = some v ∧
      (15 / 100 : ℚ) * 10 ≤ v.y ∧ v.y ≤ (85 / 100 : ℚ) * 10 :=
  ⟨by norm_num, ring_layout_y_bounds ringDirUnit 0 1 (by norm_num)⟩

/-- **C4 (counterexample to strictness)** At `i = 0`, `T = 1` the computed
position has `y = 3/2 = 0.15 · 10` exactly — the lower endpoint of the
claimed interval — so the `y` coordinate is *not strictly* within
`[0.15·H, 0.85·H]`. -/
theorem ring_layout_strict_counterexample :
    calculateTargetPosition ringDirUnit 0 1 = some ⟨1041 / 200, 3 / 2, 0⟩ ∧
    ¬ ((15 / 100 : ℚ) * 10 < 3 / 2) := by
  constructor
  · norm_num [calculateTargetPosition, ringDirUnit]
  · norm_num

/-!
## Focus state machine theorems
-/

/-- Helper: `runFrames` unfolds one frame at a time. -/
lemma runFrames_cons (δ : ℚ) (ds : List ℚ) (t : ExpState) :
    runFrames (δ :: ds) t = runFrames ds (frameStep δ t) := rfl

/-- Helper: behaviour of one frame in `zooming_out`: the state flips to
`idle` exactly when the lerped camera lands within 0.5 units of the
original snapshot, in which case the highlight is cleared, the controls are
re-enabled and `onFocusComplete` is called once; otherwise everything but
the camera pose is unchanged. -/
lemma frameStep_zoomOut_spec (δ : ℚ) (t : ExpState)
    (ht : t.focusState = FocusState.zooming_out) :
    (((frameStep δ t).focusState = FocusState.idle) ↔
      distSq (lerpV t.cameraPos t.originalCameraPos (δ * 3)) t.originalCameraPos
        < (1 / 2) ^ 2) ∧
    ((frameStep δ t).focusState = FocusState.idle →
      (frameStep δ t).highlightPhotoId = none ∧
      (frameStep δ t).controlsEnabled = true ∧
      (frameStep δ t).focusCompleteCount = t.focusCompleteCount + 1) ∧
    (¬ distSq (lerpV t.cameraPos t.originalCameraPos (δ * 3)) t.originalCameraPos
        < (1 / 2) ^ 2 →
      (frameStep δ t).focusState = FocusState.zooming_out ∧
      (frameStep δ t).focusCompleteCount = t.focusCompleteCount ∧
      (frameStep δ t).highlightPhotoId = t.highlightPhotoId) := by
  unfold frameStep
  rw [ht]
  simp only [reduceCtorEq, eq_self_iff_true, if_false, if_true, ite_true, ite_false]
  split_ifs with hd
  · exact ⟨iff_of_true rfl hd, fun _ => ⟨rfl, rfl, rfl⟩,
      fun hnd => absurd hd hnd⟩
  · exact ⟨iff_of_false (fun hc => nomatch hc) hd,
      fun hidle => absurd hidle (fun hc => nomatch hc), fun _ => ⟨rfl, rfl, rfl⟩⟩

/-- The invariant of one zoom-out cycle starting with completion count `c`:
either still `zooming_out` with the count unchanged, or arrived at `idle`
with the highlight cleared, the controls re-enabled and the count bumped
exactly once. -/
def ZoomOutInv (c : ℕ) (t : ExpState) : Prop :=
  (t.focusState = FocusState.zooming_out ∧ t.focusCompleteCount = c) ∨
  (t.focusState = FocusState.idle ∧ t.focusCompleteCount = c + 1 ∧
   t.highlightPhotoId = none ∧ t.controlsEnabled = true)

/-- Helper: one frame preserves the zoom-out cycle invariant. -/
lemma zoomOutInv_step (c : ℕ) (δ : ℚ) (t : ExpState) (h : ZoomOutInv c t) :
    ZoomOutInv c (frameStep δ t) := by
  rcases h with ⟨hs, hc⟩ | ⟨hs, hc, hh, he⟩
  · obtain ⟨hiff, heff, hstay⟩ := frameStep_zoomOut_spec δ t hs
    by_cases hd : distSq (lerpV t.cameraPos t.originalCameraPos (δ * 3)) t.originalCameraPos
        < (1 / 2) ^ 2
    · obtain ⟨h1, h2, h3⟩ := heff (hiff.mpr hd)
      right
      refine ⟨hiff.mpr hd, ?_, h1, h2⟩
      rw [h3, hc]
    · obtain ⟨h1, h2, h3⟩ := hstay hd
      left
      exact ⟨h1, by rw [h2, hc]⟩
  · have hstep : frameStep δ t = t := by
      unfold frameStep
      rw [hs]
      simp only [reduceCtorEq, eq_self_iff_true, if_false, if_true, ite_true, ite_false]
    rw [hstep]
    exact Or.inr ⟨hs, hc, hh, he⟩

/-- Helper: any run of frames preserves the zoom-out cycle invariant. -/
lemma zoomOutInv_run (c : ℕ) (ds : List ℚ) (t : ExpState) (h : ZoomOutInv c t) :
    ZoomOutInv c (runFrames ds t) := by
  induction ds generalizing t with
  | nil => exact h
  | cons δ ds ih =>
    rw [runFrames_cons]
    exact ih (frameStep δ t) (zoomOutInv_step c δ t h)

/-- **C1** For every focus cycle: when the dwell timer elapses in
`focused`, the state becomes `zooming_out`; a frame in `zooming_out` lands
in `idle` exactly when the camera comes within 0.5 units of the original
snapshot, and on that first frame the highlighted photo id is cleared, free
camera control is re-enabled and `onFocusComplete` is invoked; over any
subsequent run of frames the completion callback has fired exactly once
precisely when `idle` has been reached. -/
theorem focus_cycle_completes_once (s : ExpState) (ds : List ℚ)
    (h : s.focusState = FocusState.focused) :
    (dwellElapsed s).focusState = FocusState.zooming_out ∧
    (∀ δ t, t.focusState = FocusState.zooming_out →
      (((frameStep δ t).focusState = FocusState.idle) ↔
        distSq (lerpV t.cameraPos t.originalCameraPos (δ * 3)) t.originalCameraPos
          < (1 / 2) ^ 2) ∧
      ((frameStep δ t).focusState = FocusState.idle →
        (frameStep δ t).highlightPhotoId = none ∧
        (frameStep δ t).controlsEnabled = true ∧
        (frameStep δ t).focusCompleteCount = t.focusCompleteCount + 1)) ∧
    ((runFrames ds (dwellElapsed s)).focusState = FocusState.idle ∨
      (runFrames ds (dwellElapsed s)).focusState = FocusState.zooming_out) ∧
    (runFrames ds (dwellElapsed s)).focusCompleteCount =
      s.focusCompleteCount +
        (if (runFrames ds (dwellElapsed s)).focusState = FocusState.idle
         then 1 else 0) := by
  have hinv : ZoomOutInv s.focusCompleteCount (dwellElapsed s) :=
    Or.inl ⟨rfl, rfl⟩
  have hrun := zoomOutInv_run s.focusCompleteCount ds (dwellElapsed s) hinv
  refine ⟨rfl, ?_, ?_, ?_⟩
  · intro δ t ht
    obtain ⟨hiff, heff, _⟩ := frameStep_zoomOut_spec δ t ht
    exact ⟨hiff, heff⟩
  · rcases hrun with ⟨hs, _⟩ | ⟨hs, _, _, _⟩
    · exact Or.inr hs
    · exact Or.inl hs
  · rcases hrun with ⟨hs, hc⟩ | ⟨hs, hc, _, _⟩
    · rw [if_neg (by rw [hs]; exact fun hx => nomatch hx)]
      omega
    · rw [if_pos hs, hc]

/-- Helper: behaviour of one frame in `zooming_in`: the camera lerps
toward the stored target, and the state flips to `focused` (bumping the
fire counter) exactly when the lerped camera lands within 0.3 units of the
target; otherwise nothing but the camera pose changes. -/
lemma frameStep_zoomIn_spec (δ : ℚ) (t : ExpState)
    (ht : t.focusState = FocusState.zooming_in) :
    (frameStep δ t).cameraPos = lerpV t.cameraPos t.targetCameraPos (δ * 3) ∧
    (((frameStep δ t).focusState = FocusState.focused) ↔
      distSq (lerpV t.cameraPos t.targetCameraPos (δ * 3)) t.targetCameraPos
        < (3 / 10) ^ 2) ∧
    ((frameStep δ t).focusState = FocusState.focused →
      (frameStep δ t).focusedFireCount = t.focusedFireCount + 1) ∧
    (¬ distSq (lerpV t.cameraPos t.targetCameraPos (δ * 3)) t.targetCameraPos
        < (3 / 10) ^ 2 →
      (frameStep δ t).focusState = FocusState.zooming_in ∧
      (frameStep δ t).focusedFireCount = t.focusedFireCount) := by
  unfold frameStep
  rw [ht]
  simp only [reduceCtorEq, eq_self_iff_true, if_false, if_true, ite_true, ite_false]
  split_ifs with hd
  · exact ⟨rfl, iff_of_true rfl hd, fun _ => rfl, fun hnd => absurd hd hnd⟩
  · exact ⟨rfl, iff_of_false (fun hc => nomatch hc) hd,
      fun hf => absurd hf (fun hc => nomatch hc), fun _ => ⟨rfl, rfl⟩⟩

/-- Helper: a frame in `focused` only lerps the look-at target: the state
stays `focused` and neither counter nor highlight changes. -/
lemma frameStep_focused_spec (δ : ℚ) (t : ExpState)
    (ht : t.focusState = FocusState.focused) :
    (frameStep δ t).focusState = FocusState.focused ∧
    (frameStep δ t).focusedFireCount = t.focusedFireCount ∧
    (frameStep δ t).focusCompleteCount = t.focusCompleteCount ∧
    (frameStep δ t).highlightPhotoId = t.highlightPhotoId := by
  unfold frameStep
  rw [ht]
  simp only [reduceCtorEq, eq_self_iff_true, if_false, if_true, ite_true, ite_false]
  exact ⟨trivial, trivial, trivial, trivial⟩

/-- The invariant of one zoom-in approach starting with fire count `c`:
either still `zooming_in` with the count unchanged, or arrived in `focused`
with the count bumped exactly once. -/
def ZoomInInv (c : ℕ) (t : ExpState) : Prop :=
  (t.focusState = FocusState.zooming_in ∧ t.focusedFireCount = c) ∨
  (t.focusState = FocusState.focused ∧ t.focusedFireCount = c + 1)

/-- Helper: one frame preserves the zoom-in invariant. -/
lemma zoomInInv_step (c : ℕ) (δ : ℚ) (t : ExpState) (h : ZoomInInv c t) :
    ZoomInInv c (frameStep δ t) := by
  rcases h with ⟨hs, hc⟩ | ⟨hs, hc⟩
  · obtain ⟨_, hiff, hfire, hstay⟩ := frameStep_zoomIn_spec δ t hs
    by_cases hd : distSq (lerpV t.cameraPos t.targetCameraPos (δ * 3)) t.targetCameraPos
        < (3 / 10) ^ 2
    · right
      refine ⟨hiff.mpr hd, ?_⟩
      rw [hfire (hiff.mpr hd), hc]
    · obtain ⟨h1, h2⟩ := hstay hd
      left
      exact ⟨h1, by rw [h2, hc]⟩
  · obtain ⟨h1, h2, _, _⟩ := frameStep_focused_spec δ t hs
    right
    exact ⟨h1, by rw [h2, hc]⟩

/-- Helper: any run of frames preserves the zoom-in invariant. -/
lemma zoomInInv_run (c : ℕ) (ds : List ℚ) (t : ExpState) (h : ZoomInInv c t) :
    ZoomInInv c (runFrames ds t) := by
  induction ds generalizing t with
  | nil => exact h
  | cons δ ds ih =>
    rw [runFrames_cons]
    exact ih (frameStep δ t) (zoomInInv_step c δ t h)

/-- **C8** In `zooming_in` each frame lerps the camera toward the stored
target; the transition to `focused` happens exactly on a frame where the
camera lands within 0.3 units of the target; a frame in `focused` keeps the
state `focused` without firing again; and over any run of frames starting
in `zooming_in` the `focused` transition has fired exactly once precisely
when the machine is in `focused` (idempotent at the boundary). -/
theorem zooming_in_fires_focused_once (s : ExpState) (ds : List ℚ)
    (h : s.focusState = FocusState.zooming_in) :
    (∀ δ t, t.focusState = FocusState.zooming_in →
      (frameStep δ t).cameraPos = lerpV t.cameraPos t.targetCameraPos (δ * 3) ∧
      (((frameStep δ t).focusState = FocusState.focused) ↔
        distSq (lerpV t.cameraPos t.targetCameraPos (δ * 3)) t.targetCameraPos
          < (3 / 10) ^ 2)) ∧
    (∀ δ t, t.focusState = FocusState.focused →
      (frameStep δ t).focusState = FocusState.focused ∧
      (frameStep δ t).focusedFireCount = t.focusedFireCount) ∧
    ((runFrames ds s).focusState = FocusState.zooming_in ∨
      (runFrames ds s).focusState = FocusState.focused) ∧
    (runFrames ds s).focusedFireCount =
      s.focusedFireCount +
        (if (runFrames ds s).focusState = FocusState.focused then 1 else 0) := by
  have hrun := zoomInInv_run s.focusedFireCount ds s (Or.inl ⟨h, rfl⟩)
  refine ⟨?_, ?_, ?_, ?_⟩
  · intro δ t ht
    obtain ⟨hcam, hiff, _, _⟩ := frameStep_zoomIn_spec δ t ht
    exact ⟨hcam, hiff⟩
  · intro δ t ht
    obtain ⟨h1, h2, _, _⟩ := frameStep_focused_spec δ t ht
    exact ⟨h1, h2⟩
  · rcases hrun with ⟨hs, _⟩ | ⟨hs, _⟩
    · exact Or.inl hs
    · exact Or.inr hs
  · rcases hrun with ⟨hs, hc⟩ | ⟨hs, hc⟩
    · rw [if_neg (by rw [hs]; exact fun hx => nomatch hx)]
      omega
    · rw [if_pos hs, hc]

/-- A concrete machine state at rest (`idle`, the initial camera pose of
the scene), used by witnesses and counterexamples. -/
def idleState : ExpState :=
  { focusState := FocusState.idle
    highlightPhotoId := none
    focusTimer := none
    targetCameraPos := ⟨0, 4, 20⟩
    targetLookAt := ⟨0, 4, 0⟩
    originalCameraPos := ⟨0, 4, 20⟩
    originalLookAt := ⟨0, 4, 0⟩
    cameraPos := ⟨0, 4, 20⟩
    controlsTarget := ⟨0, 4, 0⟩
    controlsEnabled := true
    focusCompleteCount := 0
    focusedFireCount := 0 }

/-- A concrete machine state dwelling in `focused` after a click focus,
used by the C1 witness. -/
def focusedState : ExpState :=
  { focusState := FocusState.focused
    highlightPhotoId := some 7
    focusTimer := none
    targetCameraPos := ⟨0, 2, 17⟩
    targetLookAt := ⟨0, 2, 12⟩
    originalCameraPos := ⟨0, 4, 20⟩
    originalLookAt := ⟨0, 4, 0⟩
    cameraPos := ⟨0, 2, 17⟩
    controlsTarget := ⟨0, 2, 12⟩
    controlsEnabled := false
    focusCompleteCount := 0
    focusedFireCount := 1 }

/-- Witness for `focus_cycle_completes_once`: from the concrete `focused`
state, after the dwell elapses one frame with `δ = 1/3` brings the camera
back onto the original snapshot, reaching `idle` with the completion
callback fired once. -/
theorem focus_cycle_completes_once_witness :
    focusedState.focusState = FocusState.focused ∧
    (dwellElapsed focusedState).focusState = FocusState.zooming_out ∧
    (runFrames [1 / 3] (dwellElapsed focusedState)).focusState = FocusState.idle ∧
    (runFrames [1 / 3] (dwellElapsed focusedState)).focusCompleteCount =
      focusedState.focusCompleteCount + 1 := by
  have h := focus_cycle_completes_once focusedState [1 / 3] rfl
  have hrw : runFrames [1 / 3] (dwellElapsed focusedState)
      = frameStep (1 / 3) (dwellElapsed focusedState) := rfl
  have hd : distSq
      (lerpV (dwellElapsed focusedState).cameraPos
        (dwellElapsed focusedState).originalCameraPos ((1 / 3) * 3))
      (dwellElapsed focusedState).originalCameraPos < (1 / 2) ^ 2 := by
    norm_num [dwellElapsed, focusedState, lerpV, lerpQ, distSq]
  have hidle : (runFrames [1 / 3] (dwellElapsed focusedState)).focusState
      = FocusState.idle := by
    rw [hrw]
    exact ((frameStep_zoomOut_spec (1 / 3) (dwellElapsed focusedState) rfl).1).mpr hd
  refine ⟨rfl, h.1, hidle, ?_⟩
  have hc := h.2.2.2
  rw [if_pos hidle] at hc
  exact hc

/-- A concrete machine state entering `zooming_in` with the camera already
at the stored target, used by the C8 witness. -/
def zoomingInState : ExpState :=
  { focusState := FocusState.zooming_in
    highlightPhotoId := some 7
    focusTimer := some 5000
    targetCameraPos := ⟨0, 2, 17⟩
    targetLookAt := ⟨0, 2, 12⟩
    originalCameraPos := ⟨0, 4, 20⟩
    originalLookAt := ⟨0, 4, 0⟩
    cameraPos := ⟨0, 2, 17⟩
    controlsTarget := ⟨0, 4, 0⟩
    controlsEnabled := false
    focusCompleteCount := 0
    focusedFireCount := 0 }

/-- Witness for `zooming_in_fires_focused_once`: one frame with `δ = 0`
keeps the camera on the target, within the 0.3 threshold, so the machine
reaches `focused` with the fire counter bumped to exactly one. -/
theorem zooming_in_fires_focused_once_witness :
    zoomingInState.focusState = FocusState.zooming_in ∧
    (runFrames [0] zoomingInState).focusState = FocusState.focused ∧
    (runFrames [0] zoomingInState).focusedFireCount =
      zoomingInState.focusedFireCount + 1 := by
  have h := zooming_in_fires_focused_once zoomingInState [0] rfl
  have hrw : runFrames [0] zoomingInState = frameStep 0 zoomingInState := rfl
  have hd : distSq (lerpV zoomingInState.cameraPos zoomingInState.targetCameraPos (0 * 3))
      zoomingInState.targetCameraPos < (3 / 10) ^ 2 := by
    norm_num [zoomingInState, lerpV, lerpQ, distSq]
  have hf : (runFrames [0] zoomingInState).focusState = FocusState.focused := by
    rw [hrw]
    exact ((frameStep_zoomIn_spec 0 zoomingInState rfl).2.1).mpr hd
  refine ⟨rfl, hf, ?_⟩
  have hc := h.2.2.2
  rw [if_pos hf] at hc
  exact hc

/-- **C7** While the focus state is not `idle`, a click trigger is a
complete no-op (the component state, in particular the focus state and the
highlighted photo id, is returned unchanged); a new photo arriving while a
focus sequence is active overwrites any pending dwell timer with a fresh
20 s one and retargets the highlighted photo id to the new photo's id. -/
theorem busy_click_ignored_new_photo_retargets (photos : List Photo)
    (s : ExpState) (pid newPid : ℤ) (h : s.focusState ≠ FocusState.idle) :
    handlePhotoClick s pid = s ∧
    (handlePhotoClick s pid).focusState = s.focusState ∧
    (handlePhotoClick s pid).highlightPhotoId = s.highlightPhotoId ∧
    (focusPhotoEffect photos s (some newPid)).highlightPhotoId = some newPid ∧
    (focusPhotoEffect photos s (some newPid)).focusTimer = some 20000 ∧
    (focusPhotoEffect photos s (some newPid)).focusState = FocusState.zooming_in := by
  have hclick : handlePhotoClick s pid = s := by
    unfold handlePhotoClick
    rw [if_pos h]
  exact ⟨hclick, by rw [hclick], by rw [hclick], rfl, rfl, rfl⟩

/-- A concrete machine state in the middle of a click focus with its 5 s
dwell timer still pending, used by the C7 witness. -/
def busyState : ExpState :=
  { focusState := FocusState.zooming_in
    highlightPhotoId := some 3
    focusTimer := some 5000
    targetCameraPos := ⟨0, 2, 17⟩
    targetLookAt := ⟨0, 2, 12⟩
    originalCameraPos := ⟨0, 4, 20⟩
    originalLookAt := ⟨0, 4, 0⟩
    cameraPos := ⟨0, 3, 18⟩
    controlsTarget := ⟨0, 3, 6⟩
    controlsEnabled := false
    focusCompleteCount := 0
    focusedFireCount := 0 }

/-- Witness for `busy_click_ignored_new_photo_retargets`: in the busy
state a click for photo 9 changes nothing, while a new photo 42 overwrites
the pending 5 s timer with a 20 s one and retargets the highlight. -/
theorem busy_click_ignored_new_photo_retargets_witness :
    busyState.focusState ≠ FocusState.idle ∧
    (handlePhotoClick busyState 9 = busyState ∧
     (handlePhotoClick busyState 9).focusState = busyState.focusState ∧
     (handlePhotoClick busyState 9).highlightPhotoId = busyState.highlightPhotoId ∧
     (focusPhotoEffect [] busyState (some 42)).highlightPhotoId = some 42 ∧
     (focusPhotoEffect [] busyState (some 42)).focusTimer = some 20000 ∧
     (focusPhotoEffect [] busyState (some 42)).focusState = FocusState.zooming_in) :=
  ⟨(fun hx => nomatch hx),
   busy_click_ignored_new_photo_retargets [] busyState 9 42 (fun hx => nomatch hx)⟩

/-- **C6 (amended)** The two focus triggers use different framing
parameters and the dwell durations are as claimed (click 5 s, new-photo
20 s, shorter for the click), but the framing distances are reversed
relative to the claim: the click trigger places the camera 5 units from
its photo display position while the new-photo trigger places it 4 units
away, so the click framing is the slightly farther one. -/
theorem framing_parameters (photos : List Photo) (s : ExpState) (pid : ℤ)
    (h : s.focusState = FocusState.idle) :
    distSq (handlePhotoClick s pid).targetCameraPos
        (handlePhotoClick s pid).targetLookAt = 5 ^ 2 ∧
    distSq (focusPhotoEffect photos s (some pid)).targetCameraPos
        (focusPhotoEffect photos s (some pid)).targetLookAt = 4 ^ 2 ∧
    ((4 : ℚ) ^ 2 < 5 ^ 2) ∧
    (handlePhotoClick s pid).focusTimer = some 5000 ∧
    (focusPhotoEffect photos s (some pid)).focusTimer = some 20000 ∧
    ((5000 : ℚ) < 20000) := by
  unfold handlePhotoClick focusPhotoEffect
  rw [if_neg (not_not_intro h)]
  refine ⟨by norm_num [distSq], by norm_num [distSq], by norm_num, rfl, rfl, by norm_num⟩

/-- Witness for `framing_parameters` at the concrete idle state. -/
theorem framing_parameters_witness :
    idleState.focusState = FocusState.idle ∧
    (distSq (handlePhotoClick idleState 7).targetCameraPos
        (handlePhotoClick idleState 7).targetLookAt = 5 ^ 2 ∧
     distSq (focusPhotoEffect [] idleState (some 7)).targetCameraPos
        (focusPhotoEffect [] idleState (some 7)).targetLookAt = 4 ^ 2 ∧
     ((4 : ℚ) ^ 2 < 5 ^ 2) ∧
     (handlePhotoClick idleState 7).focusTimer = some 5000 ∧
     (focusPhotoEffect [] idleState (some 7)).focusTimer = some 20000 ∧
     ((5000 : ℚ) < 20000)) :=
  ⟨rfl, framing_parameters [] idleState 7 rfl⟩

/-- **C6 (counterexample)** At the concrete idle state, the click trigger
parks the camera at squared distance 25 from its display position while
the new-photo trigger parks it at squared distance 16: the click framing
is not the closer one, contradicting the claim. -/
theorem framing_closer_counterexample :
    distSq (handlePhotoClick idleState 7).targetCameraPos
        (handlePhotoClick idleState 7).targetLookAt = 25 ∧
    distSq (focusPhotoEffect [] idleState (some 7)).targetCameraPos
        (focusPhotoEffect [] idleState (some 7)).targetLookAt = 16 ∧
    ¬ ((25 : ℚ) < 16) := by
  refine ⟨?_, ?_, by norm_num⟩
  · norm_num [handlePhotoClick, idleState, distSq]
  · norm_num [focusPhotoEffect, idleState, distSq]

/-- **C3 (counterexample)** A focus trigger for id 42 while the photo list
is empty: the requested id resolves to no photo, yet the effect still
leaves `idle` for `zooming_in` and records 42 as the highlighted id — a
missing focus target is *not* treated as a no-op. -/
theorem missing_target_not_noop_counterexample :
    (42 : ℤ) ∉ photoIds [] ∧
    idleState.focusState = FocusState.idle ∧
    (focusPhotoEffect [] idleState (some 42)).focusState = FocusState.zooming_in ∧
    (focusPhotoEffect [] idleState (some 42)).highlightPhotoId = some 42 :=
  ⟨by simp [photoIds], rfl, rfl, rfl⟩

/-- **C3 (amended)** The `focusPhotoId` effect never consults the photo
list: even when the requested id is not present, it still transitions
`idle → zooming_in` and records the unresolvable id as the highlighted
photo, behaving exactly as it does with any other photo list (the camera
aims at a fixed display position, so no per-photo lookup occurs). -/
theorem focus_effect_ignores_photo_list (photos : List Photo) (s : ExpState)
    (pid : ℤ) (hmissing : pid ∉ photoIds photos)
    (hidle : s.focusState = FocusState.idle) :
    (focusPhotoEffect photos s (some pid)).focusState = FocusState.zooming_in ∧
    (focusPhotoEffect photos s (some pid)).highlightPhotoId = some pid ∧
    focusPhotoEffect photos s (some pid) = focusPhotoEffect [] s (some pid) :=
  ⟨rfl, rfl, rfl⟩

/-- Witness for `focus_effect_ignores_photo_list` at the concrete idle
state with the empty photo list and requested id 42. -/
theorem focus_effect_ignores_photo_list_witness :
    ((42 : ℤ) ∉ photoIds [] ∧ idleState.focusState = FocusState.idle) ∧
    ((focusPhotoEffect [] idleState (some 42)).focusState = FocusState.zooming_in ∧
     (focusPhotoEffect [] idleState (some 42)).highlightPhotoId = some 42 ∧
     focusPhotoEffect [] idleState (some 42) = focusPhotoEffect [] idleState (some 42)) :=
  ⟨⟨by simp [photoIds], rfl⟩,
   focus_effect_ignores_photo_list [] idleState 42 (by simp [photoIds]) rfl⟩
